import Mathlib

/-
  Verification of the mosaic mesh store (mosaic.py).

  The embedding models the three collection classes (PointCollection,
  LineSegmentCollection, ShapeCollection) and their text codec.  A text
  stream is a list of lines; a line is its list of characters without the
  trailing newline.  Numeric fields are modelled exactly: the writer's
  fixed textual precision makes every written coordinate an exact decimal,
  so coordinates are represented by their integer mantissas at that
  precision, printed and parsed as plain base-10 integer text (Python's
  `int`/`float` conversions restricted to those exact values).
  Methods that mutate `self` take the receiver and return the new
  receiver; methods that can raise return the receiver paired with an
  optional error (the error taxonomy of the spec, which refines Python's
  ValueError/IndexError by message).
-/

set_option synthInstance.maxSize 512

namespace Mosaic

/-- One line of a text stream, without its trailing newline. -/
abbrev Line := List Char

/-- The error taxonomy: each constructor corresponds to one of the
distinct exception messages raised by mosaic.py. -/
inductive MosaicError where
  | malformedHeader
  | malformedRecord
  | invalidReference
  | unclosedShape
  | emptyCollection
  | indexOutOfRange
  deriving DecidableEq, Repr

/-- Python `str.strip()` default whitespace characters. -/
def isPySpace (c : Char) : Bool :=
  c == ' ' || c == '\t' || c == '\n' || c == '\x0b' || c == '\x0c' || c == '\r'

/-- Python `str.strip()`: drop whitespace from both ends. -/
def pyStrip (l : List Char) : List Char :=
  ((l.dropWhile isPySpace).reverse.dropWhile isPySpace).reverse

/-- Python `str.split(',')`. -/
def splitComma : List Char → List (List Char)
  | [] => [[]]
  | c :: rest =>
    if c = ',' then [] :: splitComma rest
    else
      match splitComma rest with
      | [] => [[c]]
      | g :: gs => (c :: g) :: gs

/-- The character for a decimal digit value. -/
def digitChar (d : Nat) : Char := Char.ofNat (48 + d)

/-- The decimal digit value of a character, if it is a digit. -/
def charDigit (c : Char) : Option Nat :=
  if 48 ≤ c.toNat ∧ c.toNat ≤ 57 then some (c.toNat - 48) else none

/-- Decimal text of a natural number (most significant digit first). -/
def natToChars (n : Nat) : List Char :=
  if n = 0 then ['0'] else ((Nat.digits 10 n).map digitChar).reverse

/-- Parse a nonempty all-digit string as a natural number. -/
def parseDigits (l : List Char) : Option Nat :=
  if l.isEmpty then none
  else l.foldlM (fun acc c => (charDigit c).map fun d => 10 * acc + d) 0

/-- Decimal text of an integer, as Python prints one. -/
def printInt (i : Int) : List Char :=
  if i < 0 then '-' :: natToChars (-i).toNat else natToChars i.toNat

/-- Sign handling of Python `int(s)` on the already-stripped text. -/
def parseSigned : List Char → Option Int
  | [] => none
  | c :: rest =>
    if c = '-' then (parseDigits rest).map (fun n : Nat => -(n : Int))
    else if c = '+' then (parseDigits rest).map (fun n : Nat => (n : Int))
    else (parseDigits (c :: rest)).map (fun n : Nat => (n : Int))

/-- Python `int(s)`: strip, optional sign, decimal digits. -/
def parseInt (l0 : List Char) : Option Int :=
  parseSigned (pyStrip l0)

/-- `map(int, line.strip().split(','))` unpacked into exactly two values;
also models `map(float, ...)` in the points reader, whose exact
fixed-precision values are integer mantissas. -/
def parsePair (l : Line) : Option (Int × Int) :=
  match splitComma (pyStrip l) with
  | [a, b] =>
    match parseInt a, parseInt b with
    | some x, some y => some (x, y)
    | _, _ => none
  | _ => none

/-- `map(int, line.strip().split(','))` as a list, for the wider shape
records. -/
def parseRecord (l : Line) : Option (List Int) :=
  (splitComma (pyStrip l)).mapM parseInt

/-- The text of one point or segment record: `f"{a},{b}"`. -/
def printPairLine (p : Int × Int) : Line :=
  printInt p.1 ++ ',' :: printInt p.2


/- ### PointCollection -/

/-- The points store: `self.points` and the cached bounding rectangle
`self.box` (None when invalid).  The matplotlib axis `self.ax` is
rendering-only state and is not modelled. -/
structure PointCollection where
  points : List (Int × Int)
  box : Option (Int × Int × Int × Int)
  deriving DecidableEq, Repr

def pointsHeader : Line := "Mosaic Points:".data

def pointsTrailer : Line := "End of points.".data

namespace PointCollection

/-- `add_point`: append and invalidate the bounding box. -/
def add_point (pc : PointCollection) (x y : Int) : PointCollection :=
  { points := pc.points ++ [(x, y)], box := none }

/-- `remove_point`: the list comprehension keeps every point different
from `(x, y)`, and the bounding box is invalidated. -/
def remove_point (pc : PointCollection) (x y : Int) : PointCollection :=
  { points := pc.points.filter (fun point => point != (x, y)), box := none }

/-- `write_to_file`: the lines appended to the stream. -/
def write_to_file (pc : PointCollection) : List Line :=
  pointsHeader :: pc.points.map printPairLine ++ [pointsTrailer]

/-- The `for line in file` loop of `PointCollection.read_from_file`:
stop at the trailer, parse each line as two comma-separated numbers,
appending to `self.points` (`acc`). -/
def readPointsLoop (acc : List (Int × Int)) : List Line → List (Int × Int) × Option MosaicError
  | [] => (acc, none)
  | line :: rest =>
    if line = pointsTrailer then (acc, none)
    else
      match parsePair line with
      | none => (acc, some .malformedRecord)
      | some p => readPointsLoop (acc ++ [p]) rest

/-- `read_from_file`: clear the store, check the header line, then run the
record loop.  The returned pair is the state of `self` when the call
finishes (normally or by raising the returned error). -/
def read_from_file (_pc : PointCollection) (file : List Line) :
    PointCollection × Option MosaicError :=
  match file with
  | [] => ({ points := [], box := none }, some .malformedHeader)
  | first_line :: rest =>
    if first_line = pointsHeader then
      let r := readPointsLoop [] rest
      ({ points := r.1, box := none }, r.2)
    else ({ points := [], box := none }, some .malformedHeader)

/-- `if x < x_min: x_min = x` — one minimum update of the scan. -/
def minStep (a x : Int) : Int := if x < a then x else a

/-- `if x > x_max: x_max = x` — one maximum update of the scan. -/
def maxStep (a x : Int) : Int := if x > a then x else a

/-- The body of the min/max scan in `get_bounding_rectangle`: the four
`if` updates applied for one point. -/
def boundStep (bb : Int × Int × Int × Int) (p : Int × Int) : Int × Int × Int × Int :=
  (minStep bb.1 p.1, minStep bb.2.1 p.2, maxStep bb.2.2.1 p.1, maxStep bb.2.2.2 p.2)

/-- `get_bounding_rectangle`: cached value if present, error on an empty
collection, else the one-pass min/max scan initialised from the first
point; the result is cached. -/
def get_bounding_rectangle (pc : PointCollection) :
    PointCollection × Except MosaicError (Int × Int × Int × Int) :=
  match pc.box with
  | some b => (pc, .ok b)
  | none =>
    match pc.points with
    | [] => (pc, .error .emptyCollection)
    | p0 :: _ =>
      let b := pc.points.foldl boundStep (p0.1, p0.2, p0.1, p0.2)
      ({ pc with box := some b }, .ok b)

end PointCollection

/- ### LineSegmentCollection -/

/-- The segments store: `self.segments`, ordered (start, end) index
pairs. -/
structure LineSegmentCollection where
  segments : List (Int × Int)
  deriving DecidableEq, Repr

def segmentsHeader : Line := "Mosaic Line Segments:".data

def segmentsTrailer : Line := "End of line segments.".data

namespace LineSegmentCollection

/-- `add_segment`. -/
def add_segment (lsc : LineSegmentCollection) (start_index end_index : Int) :
    LineSegmentCollection :=
  { segments := lsc.segments ++ [(start_index, end_index)] }

/-- The `for line in file` loop of `LineSegmentCollection.read_from_file`:
stop at the trailer, parse, validate both indices against the point
count, append. -/
def readSegmentsLoop (n : Nat) (acc : List (Int × Int)) :
    List Line → List (Int × Int) × Option MosaicError
  | [] => (acc, none)
  | line :: rest =>
    if line = segmentsTrailer then (acc, none)
    else
      match parsePair line with
      | none => (acc, some .malformedRecord)
      | some (start_index, end_index) =>
        if start_index < 0 ∨ start_index ≥ (n : Int) ∨ end_index < 0 ∨ end_index ≥ (n : Int) then
          (acc, some .invalidReference)
        else readSegmentsLoop n (acc ++ [(start_index, end_index)]) rest

/-- `read_from_file(file, points)`: clear, check header, loop; indices are
validated against `len(points)`. -/
def read_from_file (_lsc : LineSegmentCollection) (file : List Line)
    (points : List (Int × Int)) : LineSegmentCollection × Option MosaicError :=
  match file with
  | [] => (⟨[]⟩, some .malformedHeader)
  | first_line :: rest =>
    if first_line = segmentsHeader then
      let r := readSegmentsLoop points.length [] rest
      (⟨r.1⟩, r.2)
    else (⟨[]⟩, some .malformedHeader)

end LineSegmentCollection

/- ### ShapeCollection -/

/-- A triangle record: three segment indices and an (r, g, b) colour. -/
abbrev TriangleRecord := Int × Int × Int × (Int × Int × Int)

/-- A quadrilateral record: four segment indices and an (r, g, b) colour. -/
abbrev QuadRecord := Int × Int × Int × Int × (Int × Int × Int)

/-- The shapes store: one ordered sequence per variant. -/
structure ShapeCollection where
  triangles : List TriangleRecord
  quadrilaterals : List QuadRecord
  deriving DecidableEq, Repr

def shapesHeader : Line := "Mosaic Shapes:".data

def shapesTrailer : Line := "End of shapes.".data

def trianglesMarker : Line := "Triangles:".data

def quadrilateralsMarker : Line := "Quadrilaterals:".data

/-- Python list indexing `l[i]`, including the negative-index wrap;
`none` models an IndexError. -/
def pyGet (l : List (Int × Int)) (i : Int) : Option (Int × Int) :=
  if 0 ≤ i then l[i.toNat]?
  else if 0 ≤ i + l.length then l[(i + l.length).toNat]? else none

namespace ShapeCollection

/-- The loop of `_validate_shape`: the end of each segment must match the
start of the next, cyclically by position. -/
def closureCheck (segment_list : List (Int × Int)) : Bool :=
  (List.range segment_list.length).all fun i =>
    (segment_list.getD i (0, 0)).2 == (segment_list.getD ((i + 1) % segment_list.length) (0, 0)).1

/-- The comprehension `[segments[i] for i in segment_indices]`; `none`
models the IndexError a bad index raises. -/
def resolveList (segments : List (Int × Int)) : List Int → Option (List (Int × Int))
  | [] => some []
  | i :: rest =>
    match pyGet segments i, resolveList segments rest with
    | some s, some tl => some (s :: tl)
    | _, _ => none

/-- `_validate_shape(segment_indices, segments)`: resolve the indices,
then run the closure loop. -/
def validate_shape (segment_indices : List Int) (segments : List (Int × Int)) : Option Bool :=
  (resolveList segments segment_indices).map closureCheck

/-- `add_triangle`: validate then append; a failed validation raises and
leaves the store unchanged. -/
def add_triangle (sc : ShapeCollection) (seg1_index seg2_index seg3_index : Int)
    (segments : List (Int × Int)) (colour : Int × Int × Int) :
    ShapeCollection × Option MosaicError :=
  match validate_shape [seg1_index, seg2_index, seg3_index] segments with
  | none => (sc, some .indexOutOfRange)
  | some false => (sc, some .unclosedShape)
  | some true =>
    ({ sc with triangles := sc.triangles ++ [(seg1_index, seg2_index, seg3_index, colour)] }, none)

/-- `add_quadrilateral`: validate then append; a failed validation raises
and leaves the store unchanged. -/
def add_quadrilateral (sc : ShapeCollection) (seg1_index seg2_index seg3_index seg4_index : Int)
    (segments : List (Int × Int)) (colour : Int × Int × Int) :
    ShapeCollection × Option MosaicError :=
  match validate_shape [seg1_index, seg2_index, seg3_index, seg4_index] segments with
  | none => (sc, some .indexOutOfRange)
  | some false => (sc, some .unclosedShape)
  | some true =>
    ({ sc with
        quadrilaterals := sc.quadrilaterals ++ [(seg1_index, seg2_index, seg3_index, seg4_index, colour)] },
      none)

/-- The `current_section` flag of the shapes reader. -/
inductive CurrentSection where
  | trianglesSection
  | quadrilateralsSection
  deriving DecidableEq, Repr

/-- `seg1, seg2, seg3, r, g, b = map(int, line.strip().split(','))`:
unpacking fails unless exactly six integers are parsed. -/
def parse6 (l : Line) : Option (Int × Int × Int × Int × Int × Int) :=
  match parseRecord l with
  | some [seg1, seg2, seg3, r, g, b] => some (seg1, seg2, seg3, r, g, b)
  | _ => none

/-- `seg1, seg2, seg3, seg4, r, g, b = map(int, line.strip().split(','))`:
unpacking fails unless exactly seven integers are parsed. -/
def parse7 (l : Line) : Option (Int × Int × Int × Int × Int × Int × Int) :=
  match parseRecord l with
  | some [seg1, seg2, seg3, seg4, r, g, b] => some (seg1, seg2, seg3, seg4, r, g, b)
  | _ => none

/-- `self.triangles.append((seg1, seg2, seg3, (r, g, b)))`: the record
built from one parsed triangle line. -/
def tri6 (v : Int × Int × Int × Int × Int × Int) : TriangleRecord :=
  (v.1, v.2.1, v.2.2.1, (v.2.2.2.1, v.2.2.2.2.1, v.2.2.2.2.2))

/-- `self.quadrilaterals.append((seg1, seg2, seg3, seg4, (r, g, b)))`:
the record built from one parsed quadrilateral line. -/
def quad7 (v : Int × Int × Int × Int × Int × Int × Int) : QuadRecord :=
  (v.1, v.2.1, v.2.2.1, v.2.2.2.1, (v.2.2.2.2.1, v.2.2.2.2.2.1, v.2.2.2.2.2.2))

/-- The `for line in file` loop of `ShapeCollection.read_from_file`:
trailer stops, the two sub-header lines switch the section, a data line
is parsed into the active section, and a data line with no active
section falls through the if/elif chain and is skipped. -/
def readShapesLoop (tris : List TriangleRecord) (quads : List QuadRecord)
    (sect : Option CurrentSection) :
    List Line → List TriangleRecord × List QuadRecord × Option MosaicError
  | [] => (tris, quads, none)
  | line :: rest =>
    if line = shapesTrailer then (tris, quads, none)
    else if line = trianglesMarker then
      readShapesLoop tris quads (some .trianglesSection) rest
    else if line = quadrilateralsMarker then
      readShapesLoop tris quads (some .quadrilateralsSection) rest
    else
      match sect with
      | some .trianglesSection =>
        match parse6 line with
        | some (seg1, seg2, seg3, r, g, b) =>
          readShapesLoop (tris ++ [(seg1, seg2, seg3, (r, g, b))]) quads sect rest
        | none => (tris, quads, some .malformedRecord)
      | some .quadrilateralsSection =>
        match parse7 line with
        | some (seg1, seg2, seg3, seg4, r, g, b) =>
          readShapesLoop tris (quads ++ [(seg1, seg2, seg3, seg4, (r, g, b))]) sect rest
        | none => (tris, quads, some .malformedRecord)
      | none => readShapesLoop tris quads sect rest

/-- `read_from_file(file, segments)`: clear both variant sequences, check
the header, then run the section-tracking loop.  The `segments` argument
mirrors the source signature; the source body never uses it. -/
def read_from_file (_sc : ShapeCollection) (file : List Line)
    (_segments : List (Int × Int)) : ShapeCollection × Option MosaicError :=
  match file with
  | [] => (⟨[], []⟩, some .malformedHeader)
  | first_line :: rest =>
    if first_line = shapesHeader then
      let r := readShapesLoop [] [] none rest
      (⟨r.1, r.2.1⟩, r.2.2)
    else (⟨[], []⟩, some .malformedHeader)

end ShapeCollection

/- ### Lemmas about the textual codec -/

theorem dropWhile_eq_self_of {p : Char → Bool} {l : List Char}
    (h : ∀ c ∈ l, p c = false) : l.dropWhile p = l := by
  cases l with
  | nil => rfl
  | cons c tl => simp [List.dropWhile_cons, h c (by simp)]

theorem pyStrip_eq_self {l : List Char}
    (h : ∀ c ∈ l, isPySpace c = false) : pyStrip l = l := by
  unfold pyStrip
  rw [dropWhile_eq_self_of h, dropWhile_eq_self_of, List.reverse_reverse]
  intro c hc
  exact h c (List.mem_reverse.mp hc)

theorem splitComma_of_not_mem {l : List Char} (h : ',' ∉ l) :
    splitComma l = [l] := by
  induction l with
  | nil => rfl
  | cons c tl ih =>
    have hc : c ≠ ',' := fun hc => h (hc ▸ List.mem_cons_self c tl)
    have htl : ',' ∉ tl := fun hm => h (List.mem_cons_of_mem c hm)
    simp only [splitComma, if_neg hc, ih htl]

theorem splitComma_append {a b : List Char} (h : ',' ∉ a) :
    splitComma (a ++ ',' :: b) = a :: splitComma b := by
  induction a with
  | nil => simp [splitComma]
  | cons c tl ih =>
    have hc : c ≠ ',' := fun hc => h (hc ▸ List.mem_cons_self c tl)
    have htl : ',' ∉ tl := fun hm => h (List.mem_cons_of_mem c hm)
    simp only [List.cons_append, splitComma, if_neg hc, List.append_eq, ih htl]

theorem digitChar_toNat {d : Nat} (h : d < 10) : (digitChar d).toNat = 48 + d := by
  interval_cases d <;> rfl

theorem charDigit_digitChar {d : Nat} (h : d < 10) :
    charDigit (digitChar d) = some d := by
  interval_cases d <;> rfl

theorem natToChars_range {n : Nat} :
    ∀ c ∈ natToChars n, 48 ≤ c.toNat ∧ c.toNat ≤ 57 := by
  intro c hc
  unfold natToChars at hc
  by_cases h0 : n = 0
  · rw [if_pos h0] at hc
    simp at hc
    subst hc
    exact ⟨by decide, by decide⟩
  · rw [if_neg h0] at hc
    rw [List.mem_reverse, List.mem_map] at hc
    obtain ⟨d, hd, rfl⟩ := hc
    have hlt : d < 10 := Nat.digits_lt_base (by norm_num) hd
    rw [digitChar_toNat hlt]
    omega

theorem natToChars_ne_nil {n : Nat} : natToChars n ≠ [] := by
  unfold natToChars
  by_cases h0 : n = 0
  · simp [h0]
  · rw [if_neg h0]
    simp [Nat.digits_ne_nil_iff_ne_zero.mpr h0]

theorem isPySpace_false_of_digitRange {c : Char} (h : 43 ≤ c.toNat) :
    isPySpace c = false := by
  simp only [isPySpace, Bool.or_eq_false_iff, beq_eq_false_iff_ne, ne_eq]
  refine ⟨⟨⟨⟨⟨?_, ?_⟩, ?_⟩, ?_⟩, ?_⟩, ?_⟩ <;>
    · rintro rfl
      exact absurd h (by decide)

theorem foldDigits_eq {ds : List Nat} (h : ∀ d ∈ ds, d < 10) (acc : Nat) :
    ((ds.map digitChar).reverse).foldlM
        (fun acc c => (charDigit c).map fun d => 10 * acc + d) acc
      = some (acc * 10 ^ ds.length + Nat.ofDigits 10 ds) := by
  induction ds generalizing acc with
  | nil => simp [Nat.ofDigits]
  | cons d tl ih =>
    have hd : d < 10 := h d (by simp)
    have htl : ∀ x ∈ tl, x < 10 := fun x hx => h x (List.mem_cons_of_mem d hx)
    rw [List.map_cons, List.reverse_cons, List.foldlM_append, ih htl acc]
    simp only [Option.bind_eq_bind, Option.some_bind, List.foldlM_cons,
      List.foldlM_nil, charDigit_digitChar hd, Option.map_some']
    congr 1
    rw [Nat.ofDigits_cons, List.length_cons, pow_succ]
    ring

theorem parseDigits_natToChars (n : Nat) : parseDigits (natToChars n) = some n := by
  by_cases h0 : n = 0
  · subst h0
    rfl
  · unfold parseDigits
    rw [if_neg (by simp [List.isEmpty_iff, natToChars_ne_nil])]
    unfold natToChars
    rw [if_neg h0]
    rw [foldDigits_eq (fun d hd => Nat.digits_lt_base (by norm_num) hd) 0]
    simp [Nat.ofDigits_digits]

theorem printInt_range :
    ∀ (i : Int), ∀ c ∈ printInt i, c = '-' ∨ (48 ≤ c.toNat ∧ c.toNat ≤ 57) := by
  intro i c hc
  unfold printInt at hc
  by_cases hneg : i < 0
  · rw [if_pos hneg] at hc
    rcases List.mem_cons.mp hc with h | h
    · exact Or.inl h
    · exact Or.inr (natToChars_range c h)
  · rw [if_neg hneg] at hc
    exact Or.inr (natToChars_range c hc)

theorem printInt_not_space {i : Int} : ∀ c ∈ printInt i, isPySpace c = false := by
  intro c hc
  rcases printInt_range i c hc with h | h
  · subst h
    rfl
  · exact isPySpace_false_of_digitRange (by omega)

theorem printInt_no_comma {i : Int} : ',' ∉ printInt i := by
  intro hc
  rcases printInt_range i ',' hc with h | h
  · exact absurd h (by decide)
  · exact absurd h (by decide)

theorem parseInt_printInt (i : Int) : parseInt (printInt i) = some i := by
  unfold parseInt
  rw [pyStrip_eq_self printInt_not_space]
  by_cases hneg : i < 0
  · have hpr : printInt i = '-' :: natToChars (-i).toNat := by
      unfold printInt
      rw [if_pos hneg]
    rw [hpr]
    show (if '-' = '-' then (parseDigits (natToChars (-i).toNat)).map (fun n : Nat => -(n : Int))
          else if '-' = '+' then (parseDigits (natToChars (-i).toNat)).map (fun n : Nat => (n : Int))
          else (parseDigits ('-' :: natToChars (-i).toNat)).map (fun n : Nat => (n : Int)))
        = some i
    rw [if_pos rfl, parseDigits_natToChars, Option.map_some',
      Int.toNat_of_nonneg (by omega : (0:Int) ≤ -i), neg_neg]
  · have hpr : printInt i = natToChars i.toNat := by
      unfold printInt
      rw [if_neg hneg]
    obtain ⟨c, rest, hcr⟩ : ∃ c rest, natToChars i.toNat = c :: rest := by
      cases h : natToChars i.toNat with
      | nil => exact absurd h natToChars_ne_nil
      | cons c rest => exact ⟨c, rest, rfl⟩
    have hcmem : c ∈ natToChars i.toNat := by
      rw [hcr]
      exact List.mem_cons_self c rest
    have hrange := natToChars_range c hcmem
    have hcne : c ≠ '-' := by
      rintro rfl
      exact absurd hrange.1 (by decide)
    have hcne' : c ≠ '+' := by
      rintro rfl
      exact absurd hrange.1 (by decide)
    rw [hpr, hcr]
    show (if c = '-' then (parseDigits rest).map (fun n : Nat => -(n : Int))
          else if c = '+' then (parseDigits rest).map (fun n : Nat => (n : Int))
          else (parseDigits (c :: rest)).map (fun n : Nat => (n : Int)))
        = some i
    rw [if_neg hcne, if_neg hcne', ← hcr, parseDigits_natToChars, Option.map_some',
      Int.toNat_of_nonneg (by omega : (0:Int) ≤ i)]

theorem parsePair_printPairLine (p : Int × Int) :
    parsePair (printPairLine p) = some p := by
  unfold parsePair printPairLine
  have hns : ∀ c ∈ printInt p.1 ++ ',' :: printInt p.2, isPySpace c = false := by
    intro c hc
    rcases List.mem_append.mp hc with h | h
    · exact printInt_not_space c h
    · rcases List.mem_cons.mp h with h | h
      · subst h
        rfl
      · exact printInt_not_space c h
  rw [pyStrip_eq_self hns, splitComma_append printInt_no_comma,
    splitComma_of_not_mem printInt_no_comma]
  simp [parseInt_printInt]

/- ### Lemmas about the readers -/

theorem printPairLine_ne {p : Int × Int} {t : Line} (ht : ',' ∉ t) :
    printPairLine p ≠ t := by
  intro h
  apply ht
  rw [← h]
  unfold printPairLine
  exact List.mem_append.mpr (Or.inr (List.mem_cons_self _ _))

theorem readPointsLoop_mapped (pts : List (Int × Int)) :
    ∀ acc, PointCollection.readPointsLoop acc (pts.map printPairLine ++ [pointsTrailer])
      = (acc ++ pts, none) := by
  induction pts with
  | nil =>
    intro acc
    simp [PointCollection.readPointsLoop]
  | cons p tl ih =>
    intro acc
    rw [List.map_cons, List.cons_append]
    simp only [PointCollection.readPointsLoop,
      if_neg (printPairLine_ne (by decide : ',' ∉ pointsTrailer)),
      parsePair_printPairLine]
    rw [ih (acc ++ [p])]
    simp

theorem readPointsLoop_all_parse (lines : List Line)
    (h : ∀ l ∈ lines, l ≠ pointsTrailer ∧ (parsePair l).isSome = true) :
    ∀ acc, PointCollection.readPointsLoop acc lines
      = (acc ++ lines.filterMap parsePair, none) := by
  induction lines with
  | nil =>
    intro acc
    simp [PointCollection.readPointsLoop]
  | cons l tl ih =>
    intro acc
    obtain ⟨hne, hsome⟩ := h l (List.mem_cons_self l tl)
    obtain ⟨p, hp⟩ := Option.isSome_iff_exists.mp hsome
    have htl : ∀ x ∈ tl, x ≠ pointsTrailer ∧ (parsePair x).isSome = true :=
      fun x hx => h x (List.mem_cons_of_mem l hx)
    simp only [PointCollection.readPointsLoop, if_neg hne, hp]
    rw [ih htl (acc ++ [p]), List.filterMap_cons, hp]
    simp

theorem readPointsLoop_prefix_fail (good : List Line) {bad : Line} (rest : List Line)
    (hg : ∀ l ∈ good, l ≠ pointsTrailer ∧ (parsePair l).isSome = true)
    (hb1 : bad ≠ pointsTrailer) (hb2 : parsePair bad = none) :
    ∀ acc, PointCollection.readPointsLoop acc (good ++ bad :: rest)
      = (acc ++ good.filterMap parsePair, some .malformedRecord) := by
  induction good with
  | nil =>
    intro acc
    simp only [List.nil_append, List.filterMap_nil, List.append_nil]
    simp only [PointCollection.readPointsLoop, if_neg hb1, hb2]
  | cons l tl ih =>
    intro acc
    obtain ⟨hne, hsome⟩ := hg l (List.mem_cons_self l tl)
    obtain ⟨p, hp⟩ := Option.isSome_iff_exists.mp hsome
    have htl : ∀ x ∈ tl, x ≠ pointsTrailer ∧ (parsePair x).isSome = true :=
      fun x hx => hg x (List.mem_cons_of_mem l hx)
    rw [List.cons_append]
    simp only [PointCollection.readPointsLoop, if_neg hne, hp]
    rw [ih htl (acc ++ [p]), List.filterMap_cons, hp]
    simp

/- ### Lemmas about the bounding-rectangle scan -/

theorem minStep_le_left (a x : Int) : PointCollection.minStep a x ≤ a := by
  unfold PointCollection.minStep
  split <;> omega

theorem minStep_le_right (a x : Int) : PointCollection.minStep a x ≤ x := by
  unfold PointCollection.minStep
  split <;> omega

theorem minStep_cases (a x : Int) :
    PointCollection.minStep a x = a ∨ PointCollection.minStep a x = x := by
  unfold PointCollection.minStep
  split
  · right; rfl
  · left; rfl

theorem maxStep_le_left (a x : Int) : a ≤ PointCollection.maxStep a x := by
  unfold PointCollection.maxStep
  split <;> omega

theorem maxStep_le_right (a x : Int) : x ≤ PointCollection.maxStep a x := by
  unfold PointCollection.maxStep
  split <;> omega

theorem maxStep_cases (a x : Int) :
    PointCollection.maxStep a x = a ∨ PointCollection.maxStep a x = x := by
  unfold PointCollection.maxStep
  split
  · right; rfl
  · left; rfl

theorem foldl_minStep_le_init (l : List Int) :
    ∀ a, l.foldl PointCollection.minStep a ≤ a := by
  induction l with
  | nil => intro a; simp
  | cons x tl ih =>
    intro a
    rw [List.foldl_cons]
    exact le_trans (ih _) (minStep_le_left a x)

theorem foldl_minStep_le_mem (l : List Int) :
    ∀ a, ∀ x ∈ l, l.foldl PointCollection.minStep a ≤ x := by
  induction l with
  | nil => intro a x hx; simp at hx
  | cons y tl ih =>
    intro a x hx
    rw [List.foldl_cons]
    rcases List.mem_cons.mp hx with rfl | hx'
    · exact le_trans (foldl_minStep_le_init tl _) (minStep_le_right a x)
    · exact ih _ x hx'

theorem foldl_minStep_mem (l : List Int) :
    ∀ a, l.foldl PointCollection.minStep a = a ∨ l.foldl PointCollection.minStep a ∈ l := by
  induction l with
  | nil => intro a; left; rfl
  | cons x tl ih =>
    intro a
    rw [List.foldl_cons]
    rcases ih (PointCollection.minStep a x) with h | h
    · rcases minStep_cases a x with h2 | h2
      · left; rw [h, h2]
      · right; rw [h, h2]; exact List.mem_cons_self x tl
    · right; exact List.mem_cons_of_mem x h

theorem foldl_maxStep_le_init (l : List Int) :
    ∀ a, a ≤ l.foldl PointCollection.maxStep a := by
  induction l with
  | nil => intro a; simp
  | cons x tl ih =>
    intro a
    rw [List.foldl_cons]
    exact le_trans (maxStep_le_left a x) (ih _)

theorem foldl_maxStep_le_mem (l : List Int) :
    ∀ a, ∀ x ∈ l, x ≤ l.foldl PointCollection.maxStep a := by
  induction l with
  | nil => intro a x hx; simp at hx
  | cons y tl ih =>
    intro a x hx
    rw [List.foldl_cons]
    rcases List.mem_cons.mp hx with rfl | hx'
    · exact le_trans (maxStep_le_right a x) (foldl_maxStep_le_init tl _)
    · exact ih _ x hx'

theorem foldl_maxStep_mem (l : List Int) :
    ∀ a, l.foldl PointCollection.maxStep a = a ∨ l.foldl PointCollection.maxStep a ∈ l := by
  induction l with
  | nil => intro a; left; rfl
  | cons x tl ih =>
    intro a
    rw [List.foldl_cons]
    rcases ih (PointCollection.maxStep a x) with h | h
    · rcases maxStep_cases a x with h2 | h2
      · left; rw [h, h2]
      · right; rw [h, h2]; exact List.mem_cons_self x tl
    · right; exact List.mem_cons_of_mem x h

theorem foldl_boundStep_1 (pts : List (Int × Int)) :
    ∀ bb : Int × Int × Int × Int,
      (pts.foldl PointCollection.boundStep bb).1
        = (pts.map Prod.fst).foldl PointCollection.minStep bb.1 := by
  induction pts with
  | nil => intro bb; rfl
  | cons p tl ih =>
    intro bb
    rw [List.foldl_cons, List.map_cons, List.foldl_cons, ih]
    rfl

theorem foldl_boundStep_2 (pts : List (Int × Int)) :
    ∀ bb : Int × Int × Int × Int,
      (pts.foldl PointCollection.boundStep bb).2.1
        = (pts.map Prod.snd).foldl PointCollection.minStep bb.2.1 := by
  induction pts with
  | nil => intro bb; rfl
  | cons p tl ih =>
    intro bb
    rw [List.foldl_cons, List.map_cons, List.foldl_cons, ih]
    rfl

theorem foldl_boundStep_3 (pts : List (Int × Int)) :
    ∀ bb : Int × Int × Int × Int,
      (pts.foldl PointCollection.boundStep bb).2.2.1
        = (pts.map Prod.fst).foldl PointCollection.maxStep bb.2.2.1 := by
  induction pts with
  | nil => intro bb; rfl
  | cons p tl ih =>
    intro bb
    rw [List.foldl_cons, List.map_cons, List.foldl_cons, ih]
    rfl

theorem foldl_boundStep_4 (pts : List (Int × Int)) :
    ∀ bb : Int × Int × Int × Int,
      (pts.foldl PointCollection.boundStep bb).2.2.2
        = (pts.map Prod.snd).foldl PointCollection.maxStep bb.2.2.2 := by
  induction pts with
  | nil => intro bb; rfl
  | cons p tl ih =>
    intro bb
    rw [List.foldl_cons, List.map_cons, List.foldl_cons, ih]
    rfl

/- ### Lemmas about the shape operations and reader -/

theorem pyGet_some {l : List (Int × Int)} {i : Int}
    (h0 : 0 ≤ i) (hl : i < (l.length : Int)) :
    pyGet l i = some (l.getD i.toNat (0, 0)) := by
  unfold pyGet
  rw [if_pos h0]
  have hlt : i.toNat < l.length := by omega
  rw [List.getElem?_eq_getElem hlt, List.getD_eq_getElem _ _ hlt]

theorem readShapesLoop_cons_eq (tris : List TriangleRecord) (quads : List QuadRecord)
    (sect : Option ShapeCollection.CurrentSection) (line : Line) (rest : List Line) :
    ShapeCollection.readShapesLoop tris quads sect (line :: rest)
      = if line = shapesTrailer then (tris, quads, none)
        else if line = trianglesMarker then
          ShapeCollection.readShapesLoop tris quads (some .trianglesSection) rest
        else if line = quadrilateralsMarker then
          ShapeCollection.readShapesLoop tris quads (some .quadrilateralsSection) rest
        else
          match sect with
          | some .trianglesSection =>
            match ShapeCollection.parse6 line with
            | some (seg1, seg2, seg3, r, g, b) =>
              ShapeCollection.readShapesLoop (tris ++ [(seg1, seg2, seg3, (r, g, b))]) quads sect rest
            | none => (tris, quads, some .malformedRecord)
          | some .quadrilateralsSection =>
            match ShapeCollection.parse7 line with
            | some (seg1, seg2, seg3, seg4, r, g, b) =>
              ShapeCollection.readShapesLoop tris (quads ++ [(seg1, seg2, seg3, seg4, (r, g, b))]) sect rest
            | none => (tris, quads, some .malformedRecord)
          | none => ShapeCollection.readShapesLoop tris quads sect rest := rfl

theorem readShapesLoop_err (lines : List Line) :
    ∀ tris quads sect,
      (ShapeCollection.readShapesLoop tris quads sect lines).2.2 = none ∨
      (ShapeCollection.readShapesLoop tris quads sect lines).2.2
        = some MosaicError.malformedRecord := by
  induction lines with
  | nil =>
    intro tris quads sect
    left
    rfl
  | cons line rest ih =>
    intro tris quads sect
    rw [readShapesLoop_cons_eq]
    by_cases h1 : line = shapesTrailer
    · rw [if_pos h1]
      left
      rfl
    rw [if_neg h1]
    by_cases h2 : line = trianglesMarker
    · rw [if_pos h2]
      exact ih tris quads (some .trianglesSection)
    rw [if_neg h2]
    by_cases h3 : line = quadrilateralsMarker
    · rw [if_pos h3]
      exact ih tris quads (some .quadrilateralsSection)
    rw [if_neg h3]
    cases sect with
    | none => exact ih tris quads none
    | some s =>
      cases s with
      | trianglesSection =>
        cases h4 : ShapeCollection.parse6 line with
        | none => simp [h4]
        | some v =>
          obtain ⟨s1, s2, s3, r, g, b⟩ := v
          simp only [h4]
          exact ih _ quads (some .trianglesSection)
      | quadrilateralsSection =>
        cases h4 : ShapeCollection.parse7 line with
        | none => simp [h4]
        | some v =>
          obtain ⟨s1, s2, s3, s4, r, g, b⟩ := v
          simp only [h4]
          exact ih tris _ (some .quadrilateralsSection)

theorem readShapesLoop_skip (junk : List Line)
    (h : ∀ l ∈ junk,
      l ≠ shapesTrailer ∧ l ≠ trianglesMarker ∧ l ≠ quadrilateralsMarker) :
    ∀ (rest : List Line) tris quads,
      ShapeCollection.readShapesLoop tris quads none (junk ++ rest)
        = ShapeCollection.readShapesLoop tris quads none rest := by
  induction junk with
  | nil => intro rest tris quads; rfl
  | cons l tl ih =>
    intro rest tris quads
    obtain ⟨h1, h2, h3⟩ := h l (List.mem_cons_self l tl)
    have htl := fun x hx => h x (List.mem_cons_of_mem l hx)
    rw [List.cons_append, readShapesLoop_cons_eq, if_neg h1, if_neg h2, if_neg h3]
    exact ih htl rest tris quads

theorem readPoints_file_cons (pc : PointCollection) (first_line : Line) (rest : List Line) :
    pc.read_from_file (first_line :: rest)
      = if first_line = pointsHeader then
          (({ points := (PointCollection.readPointsLoop [] rest).1, box := none } :
              PointCollection),
            (PointCollection.readPointsLoop [] rest).2)
        else ({ points := [], box := none }, some .malformedHeader) := rfl

theorem readSegments_file_cons (lsc : LineSegmentCollection) (points : List (Int × Int))
    (first_line : Line) (rest : List Line) :
    lsc.read_from_file (first_line :: rest) points
      = if first_line = segmentsHeader then
          ((⟨(LineSegmentCollection.readSegmentsLoop points.length [] rest).1⟩ :
              LineSegmentCollection),
            (LineSegmentCollection.readSegmentsLoop points.length [] rest).2)
        else (⟨[]⟩, some .malformedHeader) := rfl

theorem readSegmentsLoop_cons_eq (n : Nat) (acc : List (Int × Int)) (line : Line)
    (rest : List Line) :
    LineSegmentCollection.readSegmentsLoop n acc (line :: rest)
      = if line = segmentsTrailer then (acc, none)
        else
          match parsePair line with
          | none => (acc, some .malformedRecord)
          | some (start_index, end_index) =>
            if start_index < 0 ∨ start_index ≥ (n : Int) ∨
                end_index < 0 ∨ end_index ≥ (n : Int) then
              (acc, some .invalidReference)
            else LineSegmentCollection.readSegmentsLoop n (acc ++ [(start_index, end_index)]) rest
      := rfl

theorem readShapes_file_cons (sc : ShapeCollection) (segments : List (Int × Int))
    (first_line : Line) (rest : List Line) :
    sc.read_from_file (first_line :: rest) segments
      = if first_line = shapesHeader then
          ((⟨(ShapeCollection.readShapesLoop [] [] none rest).1,
              (ShapeCollection.readShapesLoop [] [] none rest).2.1⟩ : ShapeCollection),
            (ShapeCollection.readShapesLoop [] [] none rest).2.2)
        else (⟨[], []⟩, some .malformedHeader) := rfl

theorem readSegmentsLoop_good_prefix (good : List Line) {n : Nat}
    (hg : ∀ l ∈ good, l ≠ segmentsTrailer ∧ ∃ s e, parsePair l = some (s, e) ∧
      0 ≤ s ∧ s < (n : Int) ∧ 0 ≤ e ∧ e < (n : Int)) :
    ∀ (tail : List Line) (acc : List (Int × Int)),
      LineSegmentCollection.readSegmentsLoop n acc (good ++ tail)
        = LineSegmentCollection.readSegmentsLoop n (acc ++ good.filterMap parsePair) tail := by
  induction good with
  | nil =>
    intro tail acc
    simp
  | cons l tl ih =>
    intro tail acc
    obtain ⟨hne, s, e, hp, hs0, hsn, he0, hen⟩ := hg l (List.mem_cons_self l tl)
    have htl := fun x hx => hg x (List.mem_cons_of_mem l hx)
    rw [List.cons_append, readSegmentsLoop_cons_eq, if_neg hne]
    simp only [hp]
    rw [if_neg (by omega), ih htl tail (acc ++ [(s, e)]), List.filterMap_cons]
    simp only [hp]
    simp [List.append_assoc]

theorem readShapesLoop_tri_prefix (good : List Line)
    (hg : ∀ l ∈ good, l ≠ shapesTrailer ∧ l ≠ trianglesMarker ∧
      l ≠ quadrilateralsMarker ∧ (ShapeCollection.parse6 l).isSome = true) :
    ∀ (tail : List Line) tris quads,
      ShapeCollection.readShapesLoop tris quads (some .trianglesSection) (good ++ tail)
        = ShapeCollection.readShapesLoop
            (tris ++ good.filterMap fun l => (ShapeCollection.parse6 l).map ShapeCollection.tri6)
            quads (some .trianglesSection) tail := by
  induction good with
  | nil =>
    intro tail tris quads
    simp
  | cons l tl ih =>
    intro tail tris quads
    obtain ⟨h1, h2, h3, hsome⟩ := hg l (List.mem_cons_self l tl)
    obtain ⟨v, hv⟩ := Option.isSome_iff_exists.mp hsome
    obtain ⟨s1, s2, s3, r, g, b⟩ := v
    have htl := fun x hx => hg x (List.mem_cons_of_mem l hx)
    rw [List.cons_append, readShapesLoop_cons_eq, if_neg h1, if_neg h2, if_neg h3]
    simp only [hv]
    rw [ih htl tail (tris ++ [(s1, s2, s3, (r, g, b))]) quads, List.filterMap_cons]
    simp only [hv, Option.map_some']
    simp only [ShapeCollection.tri6, List.append_assoc, List.singleton_append]

theorem readShapesLoop_quad_prefix (good : List Line)
    (hg : ∀ l ∈ good, l ≠ shapesTrailer ∧ l ≠ trianglesMarker ∧
      l ≠ quadrilateralsMarker ∧ (ShapeCollection.parse7 l).isSome = true) :
    ∀ (tail : List Line) tris quads,
      ShapeCollection.readShapesLoop tris quads (some .quadrilateralsSection) (good ++ tail)
        = ShapeCollection.readShapesLoop tris
            (quads ++ good.filterMap fun l => (ShapeCollection.parse7 l).map ShapeCollection.quad7)
            (some .quadrilateralsSection) tail := by
  induction good with
  | nil =>
    intro tail tris quads
    simp
  | cons l tl ih =>
    intro tail tris quads
    obtain ⟨h1, h2, h3, hsome⟩ := hg l (List.mem_cons_self l tl)
    obtain ⟨v, hv⟩ := Option.isSome_iff_exists.mp hsome
    obtain ⟨s1, s2, s3, s4, r, g, b⟩ := v
    have htl := fun x hx => hg x (List.mem_cons_of_mem l hx)
    rw [List.cons_append, readShapesLoop_cons_eq, if_neg h1, if_neg h2, if_neg h3]
    simp only [hv]
    rw [ih htl tail tris (quads ++ [(s1, s2, s3, s4, (r, g, b))]), List.filterMap_cons]
    simp only [hv, Option.map_some']
    simp only [ShapeCollection.quad7, List.append_assoc, List.singleton_append]

/- ### The claims -/

/-- Claim C1: the closure validator, applied to an ordered list of k
resolved segment records (k = 3 or 4), returns true iff for every
position i in [0, k) the end index of segment i equals the start index
of segment (i+1) mod k; the triangle cycle [(0,1),(1,2),(2,0)] and the
quadrilateral cycle [(0,1),(1,2),(2,3),(3,0)] pass, while the reordered
list [(0,1),(2,3),(1,2),(3,0)] fails: adjacency is positional. -/
theorem closure_validator_positional :
    (∀ sl : List (Int × Int), sl.length = 3 ∨ sl.length = 4 →
      (ShapeCollection.closureCheck sl = true ↔
        ∀ i < sl.length,
          (sl.getD i (0, 0)).2 = (sl.getD ((i + 1) % sl.length) (0, 0)).1)) ∧
    ShapeCollection.closureCheck [(0, 1), (1, 2), (2, 0)] = true ∧
    ShapeCollection.closureCheck [(0, 1), (1, 2), (2, 3), (3, 0)] = true ∧
    ShapeCollection.closureCheck [(0, 1), (2, 3), (1, 2), (3, 0)] = false := by
  refine ⟨?_, by decide, by decide, by decide⟩
  intro sl _hk
  unfold ShapeCollection.closureCheck
  constructor
  · intro h i hi
    exact beq_iff_eq.mp (List.all_eq_true.mp h i (List.mem_range.mpr hi))
  · intro h
    exact List.all_eq_true.mpr fun i hi => beq_iff_eq.mpr (h i (List.mem_range.mp hi))

/-- Witness for C1: the validator accepts the triangle cycle, obtained
through the iff at a concrete list of length 3. -/
theorem closure_validator_positional_witness :
    ShapeCollection.closureCheck [(0, 1), (1, 2), (2, 0)] = true :=
  (closure_validator_positional.1 [(0, 1), (1, 2), (2, 0)] (Or.inl rfl)).mpr (by decide)

/-- Claim C3: serialising any PointStore (empty included) and
deserialising the produced stream into any PointStore yields a store
whose point list equals the original, with no error. -/
theorem point_store_roundtrip (pc pc' : PointCollection) :
    pc'.read_from_file pc.write_to_file
      = ({ points := pc.points, box := none }, none) := by
  unfold PointCollection.write_to_file
  rw [List.cons_append, readPoints_file_cons, if_pos rfl, readPointsLoop_mapped pc.points []]
  simp

/-- Claim C5 counterexample: on the store [(1,2),(1,2)], remove(1,2)
removes BOTH copies, not only the first: the result is [], not the
[(1,2)] that keeping the later duplicate would give. -/
theorem remove_point_first_match_counterexample :
    (PointCollection.remove_point ⟨[(1, 2), (1, 2)], none⟩ 1 2).points = [] ∧
    ([] : List (Int × Int)) ≠ [(1, 2)] :=
  ⟨by decide, by decide⟩

/-- Claim C5 (amended): remove(x, y) removes every point equal to (x, y)
(value equality on both coordinates), keeps all the other points in
order and multiplicity, leaves the sequence unchanged (with no error)
when nothing matches, and invalidates the cache. -/
theorem remove_point_removes_all (pc : PointCollection) (x y : Int) :
    ((x, y) ∉ pc.points → (pc.remove_point x y).points = pc.points) ∧
    (pc.remove_point x y).points.Sublist pc.points ∧
    (∀ p ∈ pc.points, p ≠ (x, y) → p ∈ (pc.remove_point x y).points) ∧
    (∀ p ∈ (pc.remove_point x y).points, p ∈ pc.points ∧ p ≠ (x, y)) ∧
    (∀ p : Int × Int, p ≠ (x, y) →
      (pc.remove_point x y).points.count p = pc.points.count p) ∧
    (pc.remove_point x y).points.count (x, y) = 0 ∧
    (pc.remove_point x y).box = none := by
  simp only [PointCollection.remove_point]
  refine ⟨?_, List.filter_sublist _, ?_, ?_, ?_, ?_, trivial⟩
  · intro hnm
    exact List.filter_eq_self.mpr fun a ha => bne_iff_ne.mpr fun he => hnm (he ▸ ha)
  · intro p hp hne
    exact List.mem_filter.mpr ⟨hp, bne_iff_ne.mpr hne⟩
  · intro p hp
    have h2 := List.mem_filter.mp hp
    exact ⟨h2.1, bne_iff_ne.mp h2.2⟩
  · intro p hne
    rw [List.count_filter]
    simp [bne_iff_ne.mpr hne]
  · rw [List.count_eq_zero]
    intro hmem
    have h2 := (List.mem_filter.mp hmem).2
    simp at h2

/-- Witness for C5 (amended): removing a non-member leaves the point
list unchanged. -/
theorem remove_point_removes_all_witness :
    (PointCollection.remove_point ⟨[(3, 4)], none⟩ 1 2).points = [(3, 4)] :=
  (remove_point_removes_all ⟨[(3, 4)], none⟩ 1 2).1 (by decide)

/-- Claim C9: in the shapes reader, data lines after the header but
before either sub-header line are silently discarded: reading with them
present gives exactly the same result as reading without them. -/
theorem shapes_reader_discards_presection (sc : ShapeCollection)
    (segments : List (Int × Int)) (junk rest : List Line)
    (h : ∀ l ∈ junk,
      l ≠ shapesTrailer ∧ l ≠ trianglesMarker ∧ l ≠ quadrilateralsMarker) :
    sc.read_from_file (shapesHeader :: (junk ++ rest)) segments
      = sc.read_from_file (shapesHeader :: rest) segments := by
  rw [readShapes_file_cons, readShapes_file_cons, if_pos rfl, if_pos rfl,
    readShapesLoop_skip junk h rest [] []]

/-- Witness for C9 at a one-line junk prefix. -/
theorem shapes_reader_discards_presection_witness :
    ShapeCollection.read_from_file ⟨[], []⟩
        (shapesHeader :: ([['x']] ++ [shapesTrailer])) []
      = ShapeCollection.read_from_file ⟨[], []⟩ (shapesHeader :: [shapesTrailer]) [] :=
  shapes_reader_discards_presection ⟨[], []⟩ [] [['x']] [shapesTrailer] (by decide)

/-- Claim C10: a points stream with the exact header and only
well-formed records but no trailer line is read to end of stream
without error, appending every parsed point. -/
theorem points_reader_missing_trailer (pc : PointCollection) (lines : List Line)
    (h : ∀ l ∈ lines, l ≠ pointsTrailer ∧ (parsePair l).isSome = true) :
    pc.read_from_file (pointsHeader :: lines)
      = ({ points := lines.filterMap parsePair, box := none }, none) := by
  rw [readPoints_file_cons, if_pos rfl, readPointsLoop_all_parse lines h []]
  simp

/-- Witness for C10 at a one-record trailerless stream. -/
theorem points_reader_missing_trailer_witness :
    PointCollection.read_from_file ⟨[(9, 9)], some (0, 0, 0, 0)⟩
        (pointsHeader :: [['1', ',', '2']])
      = ({ points := [['1', ',', '2']].filterMap parsePair, box := none }, none) :=
  points_reader_missing_trailer ⟨[(9, 9)], some (0, 0, 0, 0)⟩ [['1', ',', '2']] (by decide)

/-- Claim C6: the shapes reader never runs the closure validator: no
input makes it fail with UnclosedShape (the only outcomes are success,
a malformed header, or a malformed record), and a triangle record whose
segments fail the validator is still loaded. -/
theorem shapes_reader_never_unclosed :
    (∀ (sc : ShapeCollection) (file : List Line) (segments : List (Int × Int)),
      (sc.read_from_file file segments).2 = none ∨
      (sc.read_from_file file segments).2 = some MosaicError.malformedHeader ∨
      (sc.read_from_file file segments).2 = some MosaicError.malformedRecord) ∧
    ShapeCollection.read_from_file ⟨[], []⟩
        [shapesHeader, trianglesMarker, "0,1,2,255,0,0".data, shapesTrailer]
        [(0, 1), (5, 7), (9, 0)]
      = (⟨[(0, 1, 2, (255, 0, 0))], []⟩, none) ∧
    ShapeCollection.validate_shape [0, 1, 2] [(0, 1), (5, 7), (9, 0)] = some false := by
  refine ⟨?_, by decide, by decide⟩
  intro sc file segments
  cases file with
  | nil =>
    right
    left
    rfl
  | cons first rest =>
    rw [readShapes_file_cons]
    by_cases hh : first = shapesHeader
    · rw [if_pos hh]
      rcases readShapesLoop_err rest [] [] none with h | h
      · left
        exact h
      · right
        right
        exact h
    · rw [if_neg hh]
      right
      left
      rfl

/-- Claim C8: every reader clears its store before validating the
header, so the outcome never depends on the store's prior contents; a
failed header check leaves the store empty; and a record failure — in
the points reader, in the segments reader (whether the record is
malformed or its indices are out of range), or in either section of the
shapes reader — leaves exactly the records parsed before the failing
line. -/
theorem readers_clear_before_validate :
    (∀ (pc pc' : PointCollection) (file : List Line),
      pc.read_from_file file = pc'.read_from_file file) ∧
    (∀ (lsc lsc' : LineSegmentCollection) (file : List Line) (points : List (Int × Int)),
      lsc.read_from_file file points = lsc'.read_from_file file points) ∧
    (∀ (sc sc' : ShapeCollection) (file : List Line) (segments : List (Int × Int)),
      sc.read_from_file file segments = sc'.read_from_file file segments) ∧
    (∀ (pc : PointCollection) (file : List Line),
      file.head? ≠ some pointsHeader →
      pc.read_from_file file
        = ({ points := [], box := none }, some MosaicError.malformedHeader)) ∧
    (∀ (lsc : LineSegmentCollection) (file : List Line) (points : List (Int × Int)),
      file.head? ≠ some segmentsHeader →
      lsc.read_from_file file points = (⟨[]⟩, some MosaicError.malformedHeader)) ∧
    (∀ (sc : ShapeCollection) (file : List Line) (segments : List (Int × Int)),
      file.head? ≠ some shapesHeader →
      sc.read_from_file file segments = (⟨[], []⟩, some MosaicError.malformedHeader)) ∧
    (∀ (pc : PointCollection) (good : List Line) (bad : Line) (rest : List Line),
      (∀ l ∈ good, l ≠ pointsTrailer ∧ (parsePair l).isSome = true) →
      bad ≠ pointsTrailer → parsePair bad = none →
      pc.read_from_file (pointsHeader :: (good ++ bad :: rest))
        = ({ points := good.filterMap parsePair, box := none },
            some MosaicError.malformedRecord)) ∧
    (∀ (lsc : LineSegmentCollection) (points : List (Int × Int))
        (good : List Line) (bad : Line) (rest : List Line),
      (∀ l ∈ good, l ≠ segmentsTrailer ∧ ∃ s e, parsePair l = some (s, e) ∧
        0 ≤ s ∧ s < (points.length : Int) ∧ 0 ≤ e ∧ e < (points.length : Int)) →
      bad ≠ segmentsTrailer → parsePair bad = none →
      lsc.read_from_file (segmentsHeader :: (good ++ bad :: rest)) points
        = (⟨good.filterMap parsePair⟩, some MosaicError.malformedRecord)) ∧
    (∀ (lsc : LineSegmentCollection) (points : List (Int × Int))
        (good : List Line) (bad : Line) (rest : List Line) (s e : Int),
      (∀ l ∈ good, l ≠ segmentsTrailer ∧ ∃ s e, parsePair l = some (s, e) ∧
        0 ≤ s ∧ s < (points.length : Int) ∧ 0 ≤ e ∧ e < (points.length : Int)) →
      bad ≠ segmentsTrailer → parsePair bad = some (s, e) →
      (s < 0 ∨ s ≥ (points.length : Int) ∨ e < 0 ∨ e ≥ (points.length : Int)) →
      lsc.read_from_file (segmentsHeader :: (good ++ bad :: rest)) points
        = (⟨good.filterMap parsePair⟩, some MosaicError.invalidReference)) ∧
    (∀ (sc : ShapeCollection) (segments : List (Int × Int))
        (good : List Line) (bad : Line) (rest : List Line),
      (∀ l ∈ good, l ≠ shapesTrailer ∧ l ≠ trianglesMarker ∧
        l ≠ quadrilateralsMarker ∧ (ShapeCollection.parse6 l).isSome = true) →
      bad ≠ shapesTrailer → bad ≠ trianglesMarker → bad ≠ quadrilateralsMarker →
      ShapeCollection.parse6 bad = none →
      sc.read_from_file (shapesHeader :: trianglesMarker :: (good ++ bad :: rest)) segments
        = (⟨good.filterMap fun l => (ShapeCollection.parse6 l).map ShapeCollection.tri6, []⟩,
            some MosaicError.malformedRecord)) ∧
    (∀ (sc : ShapeCollection) (segments : List (Int × Int))
        (good : List Line) (bad : Line) (rest : List Line),
      (∀ l ∈ good, l ≠ shapesTrailer ∧ l ≠ trianglesMarker ∧
        l ≠ quadrilateralsMarker ∧ (ShapeCollection.parse7 l).isSome = true) →
      bad ≠ shapesTrailer → bad ≠ trianglesMarker → bad ≠ quadrilateralsMarker →
      ShapeCollection.parse7 bad = none →
      sc.read_from_file (shapesHeader :: quadrilateralsMarker :: (good ++ bad :: rest)) segments
        = (⟨[], good.filterMap fun l => (ShapeCollection.parse7 l).map ShapeCollection.quad7⟩,
            some MosaicError.malformedRecord)) := by
  refine ⟨fun pc pc' file => rfl, fun lsc lsc' file points => rfl,
    fun sc sc' file segments => rfl, ?_, ?_, ?_, ?_, ?_, ?_, ?_, ?_⟩
  · intro pc file h
    cases file with
    | nil => rfl
    | cons first rest =>
      simp only [List.head?_cons, ne_eq, Option.some.injEq] at h
      rw [readPoints_file_cons, if_neg h]
  · intro lsc file points h
    cases file with
    | nil => rfl
    | cons first rest =>
      simp only [List.head?_cons, ne_eq, Option.some.injEq] at h
      rw [readSegments_file_cons, if_neg h]
  · intro sc file segments h
    cases file with
    | nil => rfl
    | cons first rest =>
      simp only [List.head?_cons, ne_eq, Option.some.injEq] at h
      rw [readShapes_file_cons, if_neg h]
  · intro pc good bad rest hg hb1 hb2
    rw [readPoints_file_cons, if_pos rfl,
      readPointsLoop_prefix_fail good rest hg hb1 hb2 []]
    simp
  · intro lsc points good bad rest hg hb1 hb2
    rw [readSegments_file_cons, if_pos rfl,
      readSegmentsLoop_good_prefix good hg (bad :: rest) [],
      readSegmentsLoop_cons_eq, if_neg hb1]
    simp only [hb2]
    simp
  · intro lsc points good bad rest s e hg hb1 hb2 hcond
    rw [readSegments_file_cons, if_pos rfl,
      readSegmentsLoop_good_prefix good hg (bad :: rest) [],
      readSegmentsLoop_cons_eq, if_neg hb1]
    simp only [hb2]
    rw [if_pos hcond]
    simp
  · intro sc segments good bad rest hg hb1 hb2 hb3 hb4
    rw [readShapes_file_cons, if_pos rfl, readShapesLoop_cons_eq,
      if_neg (by decide : trianglesMarker ≠ shapesTrailer), if_pos rfl,
      readShapesLoop_tri_prefix good hg (bad :: rest) [] [],
      readShapesLoop_cons_eq, if_neg hb1, if_neg hb2, if_neg hb3]
    simp only [hb4]
    simp
  · intro sc segments good bad rest hg hb1 hb2 hb3 hb4
    rw [readShapes_file_cons, if_pos rfl, readShapesLoop_cons_eq,
      if_neg (by decide : quadrilateralsMarker ≠ shapesTrailer),
      if_neg (by decide : quadrilateralsMarker ≠ trianglesMarker), if_pos rfl,
      readShapesLoop_quad_prefix good hg (bad :: rest) [] [],
      readShapesLoop_cons_eq, if_neg hb1, if_neg hb2, if_neg hb3]
    simp only [hb4]
    simp

/-- Witness for C8: a record failure on the second line leaves only the
first record, regardless of the store's prior contents. -/
theorem readers_clear_before_validate_witness :
    PointCollection.read_from_file ⟨[(7, 7)], none⟩
        (pointsHeader :: ([['1', ',', '2']] ++ ['x'] :: []))
      = ({ points := [['1', ',', '2']].filterMap parsePair, box := none },
          some MosaicError.malformedRecord) :=
  readers_clear_before_validate.2.2.2.2.2.2.1 ⟨[(7, 7)], none⟩ [['1', ',', '2']] ['x'] []
    (by decide) (by decide) (by decide)

/-- Claim C4: in the segments reader, a parsed (start, end) pair with
either index outside [0, n) stops the read with InvalidReference, a
pair with both indices in range is appended and reading continues, and
the line "5,0" read against any 3-point store fails with
InvalidReference. -/
theorem segment_reader_invalid_reference :
    (∀ (n : Nat) (acc : List (Int × Int)) (s e : Int) (line : Line) (rest : List Line),
      line ≠ segmentsTrailer → parsePair line = some (s, e) →
      (s < 0 ∨ s ≥ (n : Int) ∨ e < 0 ∨ e ≥ (n : Int)) →
      LineSegmentCollection.readSegmentsLoop n acc (line :: rest)
        = (acc, some MosaicError.invalidReference)) ∧
    (∀ (n : Nat) (acc : List (Int × Int)) (s e : Int) (line : Line) (rest : List Line),
      line ≠ segmentsTrailer → parsePair line = some (s, e) →
      0 ≤ s → s < (n : Int) → 0 ≤ e → e < (n : Int) →
      LineSegmentCollection.readSegmentsLoop n acc (line :: rest)
        = LineSegmentCollection.readSegmentsLoop n (acc ++ [(s, e)]) rest) ∧
    (∀ (lsc : LineSegmentCollection) (points : List (Int × Int)),
      points.length = 3 →
      lsc.read_from_file [segmentsHeader, "5,0".data, segmentsTrailer] points
        = (⟨[]⟩, some MosaicError.invalidReference)) := by
  refine ⟨?_, ?_, ?_⟩
  · intro n acc s e line rest hne hp hcond
    rw [readSegmentsLoop_cons_eq, if_neg hne]
    simp only [hp]
    rw [if_pos hcond]
  · intro n acc s e line rest hne hp hs0 hsn he0 hen
    rw [readSegmentsLoop_cons_eq, if_neg hne]
    simp only [hp]
    rw [if_neg (by omega)]
  · intro lsc points h3
    rw [readSegments_file_cons, if_pos rfl, h3]
    decide

/-- Witness for C4: the "5,0" record against a concrete 3-point store. -/
theorem segment_reader_invalid_reference_witness :
    LineSegmentCollection.read_from_file ⟨[(0, 5)]⟩
        [segmentsHeader, "5,0".data, segmentsTrailer] [(0, 0), (1, 1), (2, 2)]
      = (⟨[]⟩, some MosaicError.invalidReference) :=
  segment_reader_invalid_reference.2.2 ⟨[(0, 5)]⟩ [(0, 0), (1, 1), (2, 2)] rfl

/-- Claim C2: with all segment indices in range, add_triangle and
add_quadrilateral append the shape with its colour to the matching
variant sequence exactly when the resolved segments pass the closure
validator, and otherwise fail with UnclosedShape leaving both variant
sequences unchanged. -/
theorem add_shape_closure_spec (sc : ShapeCollection) (segments : List (Int × Int))
    (i1 i2 i3 i4 : Int) (colour : Int × Int × Int)
    (h1 : 0 ≤ i1 ∧ i1 < (segments.length : Int))
    (h2 : 0 ≤ i2 ∧ i2 < (segments.length : Int))
    (h3 : 0 ≤ i3 ∧ i3 < (segments.length : Int))
    (h4 : 0 ≤ i4 ∧ i4 < (segments.length : Int)) :
    (∃ b, ShapeCollection.validate_shape [i1, i2, i3] segments = some b) ∧
    (ShapeCollection.validate_shape [i1, i2, i3] segments = some true →
      sc.add_triangle i1 i2 i3 segments colour
        = ({ sc with triangles := sc.triangles ++ [(i1, i2, i3, colour)] }, none)) ∧
    (ShapeCollection.validate_shape [i1, i2, i3] segments = some false →
      sc.add_triangle i1 i2 i3 segments colour = (sc, some MosaicError.unclosedShape)) ∧
    (∃ b, ShapeCollection.validate_shape [i1, i2, i3, i4] segments = some b) ∧
    (ShapeCollection.validate_shape [i1, i2, i3, i4] segments = some true →
      sc.add_quadrilateral i1 i2 i3 i4 segments colour
        = ({ sc with
              quadrilaterals := sc.quadrilaterals ++ [(i1, i2, i3, i4, colour)] }, none)) ∧
    (ShapeCollection.validate_shape [i1, i2, i3, i4] segments = some false →
      sc.add_quadrilateral i1 i2 i3 i4 segments colour
        = (sc, some MosaicError.unclosedShape)) := by
  have g1 := pyGet_some h1.1 h1.2
  have g2 := pyGet_some h2.1 h2.2
  have g3 := pyGet_some h3.1 h3.2
  have g4 := pyGet_some h4.1 h4.2
  have hv3 : ShapeCollection.validate_shape [i1, i2, i3] segments
      = some (ShapeCollection.closureCheck
          [segments.getD i1.toNat (0, 0), segments.getD i2.toNat (0, 0),
            segments.getD i3.toNat (0, 0)]) := by
    unfold ShapeCollection.validate_shape
    simp [ShapeCollection.resolveList, g1, g2, g3]
  have hv4 : ShapeCollection.validate_shape [i1, i2, i3, i4] segments
      = some (ShapeCollection.closureCheck
          [segments.getD i1.toNat (0, 0), segments.getD i2.toNat (0, 0),
            segments.getD i3.toNat (0, 0), segments.getD i4.toNat (0, 0)]) := by
    unfold ShapeCollection.validate_shape
    simp [ShapeCollection.resolveList, g1, g2, g3, g4]
  refine ⟨⟨_, hv3⟩, ?_, ?_, ⟨_, hv4⟩, ?_, ?_⟩
  · intro ht
    simp only [ShapeCollection.add_triangle, ht]
  · intro hf
    simp only [ShapeCollection.add_triangle, hf]
  · intro ht
    simp only [ShapeCollection.add_quadrilateral, ht]
  · intro hf
    simp only [ShapeCollection.add_quadrilateral, hf]

/-- Witness for C2: adding a closed triangle appends it with its
colour. -/
theorem add_shape_closure_spec_witness :
    ShapeCollection.add_triangle ⟨[], []⟩ 0 1 2 [(0, 1), (1, 2), (2, 0)] (255, 0, 0)
      = (⟨[(0, 1, 2, (255, 0, 0))], []⟩, none) := by
  have h := (add_shape_closure_spec ⟨[], []⟩ [(0, 1), (1, 2), (2, 0)] 0 1 2 0 (255, 0, 0)
      ⟨by decide, by decide⟩ ⟨by decide, by decide⟩ ⟨by decide, by decide⟩
      ⟨by decide, by decide⟩).2.1 (by decide)
  simpa using h

/-- Claim C7: on a non-empty store with an invalid cache,
boundingRectangle returns (x_min, y_min, x_max, y_max), the coordinate
minima and maxima over all points; {(10,20),(5,2),(15,60)} gives
(5,2,15,60); an empty store fails with EmptyCollection. -/
theorem bounding_rectangle_spec :
    (∀ pc : PointCollection, pc.box = none → pc.points ≠ [] →
      ∃ b, pc.get_bounding_rectangle = ({ pc with box := some b }, Except.ok b) ∧
        b.1 ∈ pc.points.map Prod.fst ∧ (∀ v ∈ pc.points.map Prod.fst, b.1 ≤ v) ∧
        b.2.1 ∈ pc.points.map Prod.snd ∧ (∀ v ∈ pc.points.map Prod.snd, b.2.1 ≤ v) ∧
        b.2.2.1 ∈ pc.points.map Prod.fst ∧ (∀ v ∈ pc.points.map Prod.fst, v ≤ b.2.2.1) ∧
        b.2.2.2 ∈ pc.points.map Prod.snd ∧ (∀ v ∈ pc.points.map Prod.snd, v ≤ b.2.2.2)) ∧
    PointCollection.get_bounding_rectangle ⟨[(10, 20), (5, 2), (15, 60)], none⟩
      = (⟨[(10, 20), (5, 2), (15, 60)], some (5, 2, 15, 60)⟩, Except.ok (5, 2, 15, 60)) ∧
    (∀ pc : PointCollection, pc.box = none → pc.points = [] →
      pc.get_bounding_rectangle = (pc, Except.error MosaicError.emptyCollection)) := by
  refine ⟨?_, by rfl, ?_⟩
  · intro pc hbox hne
    obtain ⟨pts, box⟩ := pc
    obtain rfl : box = none := hbox
    cases pts with
    | nil => exact absurd rfl hne
    | cons p tl =>
      refine ⟨(p :: tl).foldl PointCollection.boundStep (p.1, p.2, p.1, p.2),
        rfl, ?_, ?_, ?_, ?_, ?_, ?_, ?_, ?_⟩
      · rw [foldl_boundStep_1]
        rcases foldl_minStep_mem ((p :: tl).map Prod.fst) p.1 with h | h
        · rw [h]
          exact List.mem_map.mpr ⟨p, List.mem_cons_self p tl, rfl⟩
        · exact h
      · intro v hv
        rw [foldl_boundStep_1]
        exact foldl_minStep_le_mem _ _ v hv
      · rw [foldl_boundStep_2]
        rcases foldl_minStep_mem ((p :: tl).map Prod.snd) p.2 with h | h
        · rw [h]
          exact List.mem_map.mpr ⟨p, List.mem_cons_self p tl, rfl⟩
        · exact h
      · intro v hv
        rw [foldl_boundStep_2]
        exact foldl_minStep_le_mem _ _ v hv
      · rw [foldl_boundStep_3]
        rcases foldl_maxStep_mem ((p :: tl).map Prod.fst) p.1 with h | h
        · rw [h]
          exact List.mem_map.mpr ⟨p, List.mem_cons_self p tl, rfl⟩
        · exact h
      · intro v hv
        rw [foldl_boundStep_3]
        exact foldl_maxStep_le_mem _ _ v hv
      · rw [foldl_boundStep_4]
        rcases foldl_maxStep_mem ((p :: tl).map Prod.snd) p.2 with h | h
        · rw [h]
          exact List.mem_map.mpr ⟨p, List.mem_cons_self p tl, rfl⟩
        · exact h
      · intro v hv
        rw [foldl_boundStep_4]
        exact foldl_maxStep_le_mem _ _ v hv
  · intro pc hbox hpts
    unfold PointCollection.get_bounding_rectangle
    rw [hbox, hpts]

/-- Witness for C7: the empty store with an invalid cache fails with
EmptyCollection. -/
theorem bounding_rectangle_spec_witness :
    PointCollection.get_bounding_rectangle ⟨[], none⟩
      = (⟨[], none⟩, Except.error MosaicError.emptyCollection) :=
  bounding_rectangle_spec.2.2 ⟨[], none⟩ rfl rfl

end Mosaic
